import Mathlib

/-!
Shallow embedding of `read_emails2.py` (gmail-attachment-archiver).

Python strings are modelled as `List Char` (`Str`).  The external
collaborators are modelled abstractly: the mail service is a record of
pure functions (`Gmail`), the storage service's folder contents are an
explicit list of `DriveFile` records, and the base64url decoder of the
standard library is an abstract parameter `b64decode : Str → Bytes`.
Every remote call the script performs is recorded as an `Event`; the
sync driver threads the drive state and accumulates the event trace.
An uncaught Python exception (a `KeyError`) is modelled by the
`aborted` flag of `StepOut`, which stops all further processing, as the
exception propagates to the top-level handler in `main`.
-/

namespace GmailArchiver

/-- Python strings, modelled as lists of characters. -/
abbrev Str := List Char

/-- Binary attachment data, a sequence of bytes. -/
abbrev Bytes := List Nat

/-- `str.lower()`. -/
def pyLower (s : Str) : Str := s.map Char.toLower

/-- `s.endswith(t)`. -/
def pyEndsWith (s t : Str) : Bool := t.isSuffixOf s

/-- `str.strip()`: drop leading and trailing whitespace. -/
def pyStrip (s : Str) : Str :=
  ((s.dropWhile Char.isWhitespace).reverse.dropWhile Char.isWhitespace).reverse

/-- `str.split(',')`: split at every comma, never merging separators;
the empty string yields `[[]]`, matching Python's `''.split(',') == ['']`. -/
def splitComma : Str → List Str
  | [] => [[]]
  | c :: rest =>
    match splitComma rest with
    | [] => [[]]
    | h :: t => if c = ',' then [] :: h :: t else (c :: h) :: t

/-- A file object in Drive: parent folder, name, trashed flag. -/
structure DriveFile where
  parent : Str
  name : Str
  trashed : Bool
deriving DecidableEq, Repr

/-- The storage-service state visible to the script: the files it can query. -/
abbrev DriveState := List DriveFile

/-- The `body` record of a message part; may carry an `attachmentId` key. -/
structure PartBody where
  attachmentId : Option Str
deriving DecidableEq, Repr

/-- A message part: optional `filename` key (absent keys and empty
strings are both possible) and optional `body` key. -/
structure MsgPart where
  filename : Option Str
  body : Option PartBody
deriving DecidableEq, Repr

/-- A message payload; the `parts` key may be absent. -/
structure Payload where
  parts : Option (List MsgPart)
deriving DecidableEq, Repr

/-- A full message representation; the `payload` key may be absent. -/
structure Message where
  payload : Option Payload
deriving DecidableEq, Repr

/-- The mail service, as pure functions: the (single-page) search result
as a list of message ids, the per-id full representation, and the
base64url text of each attachment's `data` field. -/
structure Gmail where
  listResult : List Str
  getMessage : Str → Message
  attachmentData : Str → Str → Str

/-- One remote call issued by the script. -/
inductive Event where
  | createFolder (name : Str)
  | listMessages (query : Str)
  | getMessage (msgId : Str)
  | existsQuery (name : Str) (folderId : Str)
  | getAttachment (msgId : Str) (attId : Str)
  | upload (name : Str) (data : Bytes) (folderId : Str)
deriving DecidableEq, Repr

/-- `file_exists_in_drive`: the duplicate guard.  Models the Drive query
`'{folder_id}' in parents and name = '{name}' and trashed = false`
followed by `len(files) > 0`. -/
def file_exists_in_drive (drive : DriveState) (file_name : Str) (folder_id : Str) : Bool :=
  decide (0 < (drive.filter
    (fun f => f.parent == folder_id && f.name == file_name && !f.trashed)).length)

/-- `upload_to_drive`: creates the file in the folder (non-trashed) and
issues one upload call. -/
def upload_to_drive (drive : DriveState) (file_name : Str) (file_data : Bytes)
    (folder_id : Str) : DriveState × Event :=
  (⟨folder_id, file_name, false⟩ :: drive, Event.upload file_name file_data folder_id)

/-- The comprehension
`[ext.strip().lower() for ext in extensions_env.split(',') if ext.strip()]`. -/
def parse_allowed_extensions (extensions_env : Str) : List Str :=
  ((splitComma extensions_env).filter (fun ext => !(pyStrip ext).isEmpty)).map
    (fun ext => pyLower (pyStrip ext))

/-- The attachment filter:
`any(filename.lower().endswith(ext) for ext in allowed_extensions)`. -/
def extension_allowed (allowed_extensions : List Str) (filename : Str) : Bool :=
  allowed_extensions.any (fun ext => pyEndsWith (pyLower filename) ext)

/-- The ambient context of one `download_attachments` run. -/
structure Ctx where
  b64decode : Str → Bytes
  gmail : Gmail
  allowed_extensions : List Str
  drive_folder_id : Str

/-- Result of a processing step: events issued, drive state after,
and whether an uncaught exception aborted the run. -/
structure StepOut where
  events : List Event
  drive : DriveState
  aborted : Bool
deriving Repr

/-- The body of the inner `for part in message['payload']['parts']` loop.
`part.get('filename')` is falsy for an absent key or the empty string;
`part['body']` raises a `KeyError` (modelled by `aborted := true`) when
the `body` key is absent; a part without `attachmentId`, or with a
disallowed extension, or already present in Drive, is skipped. -/
def processPart (ctx : Ctx) (msgId : Str) (drive : DriveState) (part : MsgPart) : StepOut :=
  match part.filename with
  | none => ⟨[], drive, false⟩
  | some filename =>
    if filename = [] then ⟨[], drive, false⟩
    else
      match part.body with
      | none => ⟨[], drive, true⟩
      | some body =>
        match body.attachmentId with
        | none => ⟨[], drive, false⟩
        | some attachment_id =>
          if extension_allowed ctx.allowed_extensions filename then
            if file_exists_in_drive drive filename ctx.drive_folder_id then
              ⟨[Event.existsQuery filename ctx.drive_folder_id], drive, false⟩
            else
              let data := ctx.gmail.attachmentData msgId attachment_id
              let file_data := ctx.b64decode data
              let up := upload_to_drive drive filename file_data ctx.drive_folder_id
              ⟨[Event.existsQuery filename ctx.drive_folder_id,
                Event.getAttachment msgId attachment_id, up.2], up.1, false⟩
          else ⟨[], drive, false⟩

/-- The inner loop over a message's parts, stopping when a step aborts. -/
def processParts (ctx : Ctx) (msgId : Str) : List MsgPart → DriveState → StepOut
  | [], drive => ⟨[], drive, false⟩
  | p :: rest, drive =>
    let r := processPart ctx msgId drive p
    if r.aborted then r
    else
      let r2 := processParts ctx msgId rest r.drive
      ⟨r.events ++ r2.events, r2.drive, r2.aborted⟩

/-- The body of the outer `for msg in messages` loop: fetch the full
message; a missing `payload` or `parts` key skips the message silently. -/
def processMessage (ctx : Ctx) (msgId : Str) (drive : DriveState) : StepOut :=
  let message := ctx.gmail.getMessage msgId
  let r : StepOut :=
    match message.payload with
    | none => ⟨[], drive, false⟩
    | some payload =>
      match payload.parts with
      | none => ⟨[], drive, false⟩
      | some parts => processParts ctx msgId parts drive
  ⟨Event.getMessage msgId :: r.events, r.drive, r.aborted⟩

/-- The outer loop over the listed messages, stopping when a step aborts. -/
def processMessages (ctx : Ctx) : List Str → DriveState → StepOut
  | [], drive => ⟨[], drive, false⟩
  | msgId :: rest, drive =>
    let r := processMessage ctx msgId drive
    if r.aborted then r
    else
      let r2 := processMessages ctx rest r.drive
      ⟨r.events ++ r2.events, r2.drive, r2.aborted⟩

/-- `download_attachments`: parse the allowed extensions, list the
matching messages (one page), and process them in order. -/
def download_attachments (b64decode : Str → Bytes) (gmail : Gmail) (extensions_env : Str)
    (query : Str) (drive_folder_id : Str) (drive : DriveState) : StepOut :=
  let allowed_extensions := parse_allowed_extensions extensions_env
  let ctx : Ctx := ⟨b64decode, gmail, allowed_extensions, drive_folder_id⟩
  let r := processMessages ctx gmail.listResult drive
  ⟨Event.listMessages query :: r.events, r.drive, r.aborted⟩

/-- Two-digit zero-padded rendering of `strftime`'s `%m`. -/
def pad2 (n : Nat) : Str := if n < 10 then '0' :: Nat.toDigits 10 n else Nat.toDigits 10 n

/-- `datetime.datetime.now().strftime("%m-%Y")` for a given run date. -/
def format_mY (month year : Nat) : Str := pad2 month ++ '-' :: Nat.toDigits 10 year

/-- `create_drive_folder`: one unconditional create call named by the
run date; the service assigns the fresh id `new_id`.  The current drive
state is a parameter only to express that the function never consults it
(no existence check). -/
def create_drive_folder (month year : Nat) (new_id : Str) (drive : DriveState) :
    List Event × Str :=
  ([Event.createFolder (format_mY month year)], new_id)

/-- The environment-sourced configuration read by `main` and
`download_attachments`. -/
structure Config where
  allowed_extensions : Option Str
  gmail_search_query : Option Str

/-- `main` after credential acquisition: build services, create the
folder, then abort with a printed error when `GMAIL_SEARCH_QUERY` is
absent (or empty, which is also falsy), else run the sync.  Returns the
full event trace of the run; a trace of an aborted sync is still the
trace of the calls made before the exception reached the top-level
handler. -/
def main_run (b64decode : Str → Bytes) (gmail : Gmail) (cfg : Config)
    (month year : Nat) (new_folder_id : Str) (drive : DriveState) : List Event :=
  let folder := create_drive_folder month year new_folder_id drive
  match cfg.gmail_search_query with
  | none => folder.1
  | some query =>
    if query = [] then folder.1
    else
      folder.1 ++ (download_attachments b64decode gmail
        (cfg.allowed_extensions.getD []) query folder.2 drive).events

/-- Is this event an upload call? -/
def isUploadEvent : Event → Bool
  | .upload _ _ _ => true
  | _ => false

/-- Is this event a mail-service call? -/
def isMailCall : Event → Bool
  | .listMessages _ => true
  | .getMessage _ => true
  | .getAttachment _ _ => true
  | _ => false

/-- Is this event a storage-service call? -/
def isStorageCall : Event → Bool
  | .createFolder _ => true
  | .existsQuery _ _ => true
  | .upload _ _ _ => true
  | _ => false

/-- How many upload calls for a given file name a trace contains. -/
def uploadsNamed (name : Str) : List Event → Nat
  | [] => 0
  | Event.upload m _ _ :: rest => (if m = name then 1 else 0) + uploadsNamed name rest
  | Event.createFolder _ :: rest => uploadsNamed name rest
  | Event.listMessages _ :: rest => uploadsNamed name rest
  | Event.getMessage _ :: rest => uploadsNamed name rest
  | Event.existsQuery _ _ :: rest => uploadsNamed name rest
  | Event.getAttachment _ _ :: rest => uploadsNamed name rest

/-- The per-part event traces of the inner loop, in processing order
(truncated at an abort). -/
def partTraces (ctx : Ctx) (msgId : Str) : List MsgPart → DriveState → List (List Event)
  | [], _ => []
  | p :: rest, drive =>
    let r := processPart ctx msgId drive p
    if r.aborted then [r.events]
    else r.events :: partTraces ctx msgId rest r.drive

/-- The per-message event traces of the outer loop, in processing order
(truncated at an abort). -/
def messageTraces (ctx : Ctx) : List Str → DriveState → List (List Event)
  | [], _ => []
  | msgId :: rest, drive =>
    let r := processMessage ctx msgId drive
    if r.aborted then [r.events]
    else r.events :: messageTraces ctx rest r.drive

/-- Exhaustive description of what one part-processing step can do. -/
theorem processPart_cases (ctx : Ctx) (msgId : Str) (drive : DriveState) (part : MsgPart) :
    (processPart ctx msgId drive part = ⟨[], drive, false⟩) ∨
    (processPart ctx msgId drive part = ⟨[], drive, true⟩ ∧
      ∃ fn, part.filename = some fn ∧ fn ≠ [] ∧ part.body = none) ∨
    (∃ fn, part.filename = some fn ∧ fn ≠ [] ∧
      (∃ b a, part.body = some b ∧ b.attachmentId = some a) ∧
      extension_allowed ctx.allowed_extensions fn = true ∧
      file_exists_in_drive drive fn ctx.drive_folder_id = true ∧
      processPart ctx msgId drive part =
        ⟨[Event.existsQuery fn ctx.drive_folder_id], drive, false⟩) ∨
    (∃ fn b a, part.filename = some fn ∧ fn ≠ [] ∧
      part.body = some b ∧ b.attachmentId = some a ∧
      extension_allowed ctx.allowed_extensions fn = true ∧
      file_exists_in_drive drive fn ctx.drive_folder_id = false ∧
      processPart ctx msgId drive part =
        ⟨[Event.existsQuery fn ctx.drive_folder_id,
          Event.getAttachment msgId a,
          Event.upload fn (ctx.b64decode (ctx.gmail.attachmentData msgId a))
            ctx.drive_folder_id],
         ⟨ctx.drive_folder_id, fn, false⟩ :: drive, false⟩) := by
  cases hf : part.filename with
  | none => exact Or.inl (by simp [processPart, hf])
  | some fn =>
    by_cases hfe : fn = []
    · exact Or.inl (by simp [processPart, hf, hfe])
    · cases hb : part.body with
      | none =>
        exact Or.inr (Or.inl ⟨by simp [processPart, hf, hfe, hb], fn, rfl, hfe, rfl⟩)
      | some body =>
        cases ha : body.attachmentId with
        | none => exact Or.inl (by simp [processPart, hf, hfe, hb, ha])
        | some a =>
          by_cases hall : extension_allowed ctx.allowed_extensions fn = true
          · by_cases hex : file_exists_in_drive drive fn ctx.drive_folder_id = true
            · refine Or.inr (Or.inr (Or.inl ⟨fn, rfl, hfe, ⟨body, a, rfl, ha⟩, hall, hex, ?_⟩))
              simp [processPart, hf, hfe, hb, ha, hall, hex]
            · refine Or.inr (Or.inr (Or.inr ⟨fn, body, a, rfl, hfe, rfl, ha, hall,
                by simpa using hex, ?_⟩))
              simp [processPart, hf, hfe, hb, ha, hall, hex, upload_to_drive]
          · refine Or.inl ?_
            simp only [Bool.not_eq_true] at hall
            simp [processPart, hf, hfe, hb, ha, hall]

/-- The duplicate guard answers `true` exactly when a non-trashed file
of that exact name sits in that folder. -/
theorem file_exists_iff (drive : DriveState) (n fid : Str) :
    file_exists_in_drive drive n fid = true ↔
      ∃ f ∈ drive, f.parent = fid ∧ f.name = n ∧ f.trashed = false := by
  simp only [file_exists_in_drive, decide_eq_true_iff, List.length_pos,
    ne_eq, List.filter_eq_nil_iff]
  push_neg
  constructor
  · rintro ⟨f, hmem, hp⟩
    refine ⟨f, hmem, ?_⟩
    have := hp
    simp only [Bool.and_eq_true, beq_iff_eq, Bool.not_eq_true'] at this
    exact ⟨this.1.1, this.1.2, this.2⟩
  · rintro ⟨f, hmem, hp⟩
    refine ⟨f, hmem, ?_⟩
    simp only [Bool.and_eq_true, beq_iff_eq, Bool.not_eq_true']
    exact ⟨⟨hp.1, hp.2.1⟩, hp.2.2⟩

/-- Adding a file to the state never makes the guard stop seeing one. -/
theorem file_exists_cons (drive : DriveState) (f : DriveFile) (n fid : Str)
    (h : file_exists_in_drive drive n fid = true) :
    file_exists_in_drive (f :: drive) n fid = true := by
  rw [file_exists_iff] at h ⊢
  obtain ⟨g, hg, hp⟩ := h
  exact ⟨g, List.mem_cons_of_mem _ hg, hp⟩

/-- The freshly uploaded file is seen by the guard. -/
theorem file_exists_head (drive : DriveState) (n fid : Str) :
    file_exists_in_drive (⟨fid, n, false⟩ :: drive) n fid = true := by
  rw [file_exists_iff]
  exact ⟨⟨fid, n, false⟩, List.mem_cons_self _ _, rfl, rfl, rfl⟩

/-- `uploadsNamed` distributes over trace concatenation. -/
theorem uploadsNamed_append (n : Str) (a b : List Event) :
    uploadsNamed n (a ++ b) = uploadsNamed n a + uploadsNamed n b := by
  induction a with
  | nil => simp [uploadsNamed]
  | cons e rest ih => cases e <;> simp [uploadsNamed, ih] <;> omega

/-- Per-step upload-count invariant: a step with the name already
present uploads nothing; a step uploads at most once; and after a step
that found or produced the name, the guard sees it. -/
theorem processPart_upload_inv (ctx : Ctx) (msgId : Str) (drive : DriveState)
    (part : MsgPart) (fn : Str) :
    (file_exists_in_drive drive fn ctx.drive_folder_id = true →
       uploadsNamed fn (processPart ctx msgId drive part).events = 0) ∧
    uploadsNamed fn (processPart ctx msgId drive part).events ≤ 1 ∧
    ((file_exists_in_drive drive fn ctx.drive_folder_id = true ∨
      1 ≤ uploadsNamed fn (processPart ctx msgId drive part).events) →
     file_exists_in_drive (processPart ctx msgId drive part).drive fn
       ctx.drive_folder_id = true) := by
  rcases processPart_cases ctx msgId drive part with h | ⟨h, -⟩ |
    ⟨g, -, -, -, -, -, h⟩ | ⟨g, b, a, -, -, -, -, -, hex, h⟩
  · rw [h]
    exact ⟨fun _ => rfl, by simp [uploadsNamed], fun hor => by
      rcases hor with he | hc
      · exact he
      · simp [uploadsNamed] at hc⟩
  · rw [h]
    exact ⟨fun _ => rfl, by simp [uploadsNamed], fun hor => by
      rcases hor with he | hc
      · exact he
      · simp [uploadsNamed] at hc⟩
  · rw [h]
    exact ⟨fun _ => rfl, by simp [uploadsNamed], fun hor => by
      rcases hor with he | hc
      · exact he
      · simp [uploadsNamed] at hc⟩
  · rw [h]
    by_cases hgn : g = fn
    · subst hgn
      refine ⟨fun he => absurd he (by simp [hex]), by simp [uploadsNamed], fun _ => ?_⟩
      exact file_exists_head drive g ctx.drive_folder_id
    · refine ⟨fun _ => by simp [uploadsNamed, hgn], by simp [uploadsNamed, hgn], fun hor => ?_⟩
      rcases hor with he | hc
      · exact file_exists_cons drive _ fn ctx.drive_folder_id he
      · simp [uploadsNamed, hgn] at hc

/-- Inner-loop upload-count invariant, by induction over the parts. -/
theorem processParts_upload_inv (ctx : Ctx) (msgId fn : Str) :
    ∀ (parts : List MsgPart) (drive : DriveState),
    (file_exists_in_drive drive fn ctx.drive_folder_id = true →
       uploadsNamed fn (processParts ctx msgId parts drive).events = 0) ∧
    uploadsNamed fn (processParts ctx msgId parts drive).events ≤ 1 ∧
    ((file_exists_in_drive drive fn ctx.drive_folder_id = true ∨
      1 ≤ uploadsNamed fn (processParts ctx msgId parts drive).events) →
     file_exists_in_drive (processParts ctx msgId parts drive).drive fn
       ctx.drive_folder_id = true)
  | [], drive => by
    refine ⟨fun _ => rfl, by simp [processParts, uploadsNamed], fun hor => ?_⟩
    rcases hor with he | hc
    · exact he
    · simp [processParts, uploadsNamed] at hc
  | p :: rest, drive => by
    obtain ⟨p1, p2, p3⟩ := processPart_upload_inv ctx msgId drive p fn
    cases hab : (processPart ctx msgId drive p).aborted with
    | true =>
      have hr : processParts ctx msgId (p :: rest) drive = processPart ctx msgId drive p := by
        simp [processParts, hab]
      rw [hr]
      exact ⟨p1, p2, p3⟩
    | false =>
      obtain ⟨q1, q2, q3⟩ :=
        processParts_upload_inv ctx msgId fn rest (processPart ctx msgId drive p).drive
      have hr : processParts ctx msgId (p :: rest) drive =
          ⟨(processPart ctx msgId drive p).events ++
             (processParts ctx msgId rest (processPart ctx msgId drive p).drive).events,
           (processParts ctx msgId rest (processPart ctx msgId drive p).drive).drive,
           (processParts ctx msgId rest (processPart ctx msgId drive p).drive).aborted⟩ := by
        simp [processParts, hab]
      rw [hr]
      simp only [uploadsNamed_append]
      refine ⟨?_, ?_, ?_⟩
      · intro he
        have hc1 := p1 he
        have he2 := p3 (Or.inl he)
        have hc2 := q1 he2
        omega
      · by_cases hc1 : 1 ≤ uploadsNamed fn (processPart ctx msgId drive p).events
        · have he2 := p3 (Or.inr hc1)
          have hc2 := q1 he2
          omega
        · omega
      · intro hor
        rcases hor with he | hc
        · exact q3 (Or.inl (p3 (Or.inl he)))
        · by_cases hc1 : 1 ≤ uploadsNamed fn (processPart ctx msgId drive p).events
          · exact q3 (Or.inl (p3 (Or.inr hc1)))
          · have : 1 ≤ uploadsNamed fn
                (processParts ctx msgId rest (processPart ctx msgId drive p).drive).events := by
              omega
            exact q3 (Or.inr this)

/-- Per-message upload-count invariant. -/
theorem processMessage_upload_inv (ctx : Ctx) (msgId fn : Str) (drive : DriveState) :
    (file_exists_in_drive drive fn ctx.drive_folder_id = true →
       uploadsNamed fn (processMessage ctx msgId drive).events = 0) ∧
    uploadsNamed fn (processMessage ctx msgId drive).events ≤ 1 ∧
    ((file_exists_in_drive drive fn ctx.drive_folder_id = true ∨
      1 ≤ uploadsNamed fn (processMessage ctx msgId drive).events) →
     file_exists_in_drive (processMessage ctx msgId drive).drive fn
       ctx.drive_folder_id = true) := by
  cases hpl : (ctx.gmail.getMessage msgId).payload with
  | none =>
    refine ⟨fun _ => by simp [processMessage, hpl, uploadsNamed], ?_, fun hor => ?_⟩
    · simp [processMessage, hpl, uploadsNamed]
    · rcases hor with he | hc
      · simpa [processMessage, hpl] using he
      · simp [processMessage, hpl, uploadsNamed] at hc
  | some payload =>
    cases hps : payload.parts with
    | none =>
      refine ⟨fun _ => by simp [processMessage, hpl, hps, uploadsNamed], ?_, fun hor => ?_⟩
      · simp [processMessage, hpl, hps, uploadsNamed]
      · rcases hor with he | hc
        · simpa [processMessage, hpl, hps] using he
        · simp [processMessage, hpl, hps, uploadsNamed] at hc
    | some parts =>
      obtain ⟨q1, q2, q3⟩ := processParts_upload_inv ctx msgId fn parts drive
      refine ⟨fun he => by simpa [processMessage, hpl, hps, uploadsNamed] using q1 he,
        by simpa [processMessage, hpl, hps, uploadsNamed] using q2, fun hor => ?_⟩
      rcases hor with he | hc
      · simpa [processMessage, hpl, hps] using q3 (Or.inl he)
      · have : 1 ≤ uploadsNamed fn (processParts ctx msgId parts drive).events := by
          simpa [processMessage, hpl, hps, uploadsNamed] using hc
        simpa [processMessage, hpl, hps] using q3 (Or.inr this)

/-- Outer-loop upload-count invariant, by induction over the messages. -/
theorem processMessages_upload_inv (ctx : Ctx) (fn : Str) :
    ∀ (msgs : List Str) (drive : DriveState),
    (file_exists_in_drive drive fn ctx.drive_folder_id = true →
       uploadsNamed fn (processMessages ctx msgs drive).events = 0) ∧
    uploadsNamed fn (processMessages ctx msgs drive).events ≤ 1 ∧
    ((file_exists_in_drive drive fn ctx.drive_folder_id = true ∨
      1 ≤ uploadsNamed fn (processMessages ctx msgs drive).events) →
     file_exists_in_drive (processMessages ctx msgs drive).drive fn
       ctx.drive_folder_id = true)
  | [], drive => by
    refine ⟨fun _ => rfl, by simp [processMessages, uploadsNamed], fun hor => ?_⟩
    rcases hor with he | hc
    · exact he
    · simp [processMessages, uploadsNamed] at hc
  | msgId :: rest, drive => by
    obtain ⟨p1, p2, p3⟩ := processMessage_upload_inv ctx msgId fn drive
    cases hab : (processMessage ctx msgId drive).aborted with
    | true =>
      have hr : processMessages ctx (msgId :: rest) drive = processMessage ctx msgId drive := by
        simp [processMessages, hab]
      rw [hr]
      exact ⟨p1, p2, p3⟩
    | false =>
      obtain ⟨q1, q2, q3⟩ :=
        processMessages_upload_inv ctx fn rest (processMessage ctx msgId drive).drive
      have hr : processMessages ctx (msgId :: rest) drive =
          ⟨(processMessage ctx msgId drive).events ++
             (processMessages ctx rest (processMessage ctx msgId drive).drive).events,
           (processMessages ctx rest (processMessage ctx msgId drive).drive).drive,
           (processMessages ctx rest (processMessage ctx msgId drive).drive).aborted⟩ := by
        simp [processMessages, hab]
      rw [hr]
      simp only [uploadsNamed_append]
      refine ⟨?_, ?_, ?_⟩
      · intro he
        have hc1 := p1 he
        have hc2 := q1 (p3 (Or.inl he))
        omega
      · by_cases hc1 : 1 ≤ uploadsNamed fn (processMessage ctx msgId drive).events
        · have hc2 := q1 (p3 (Or.inr hc1))
          omega
        · omega
      · intro hor
        rcases hor with he | hc
        · exact q3 (Or.inl (p3 (Or.inl he)))
        · by_cases hc1 : 1 ≤ uploadsNamed fn (processMessage ctx msgId drive).events
          · exact q3 (Or.inl (p3 (Or.inr hc1)))
          · have : 1 ≤ uploadsNamed fn
                (processMessages ctx rest (processMessage ctx msgId drive).drive).events := by
              omega
            exact q3 (Or.inr this)

/-- A sample context used to instantiate hypothesis-bearing theorems:
one allowed extension `.pdf`, an empty mailbox record, constant
attachment data, and a constant decoder. -/
def sampleCtx : Ctx :=
  ⟨fun _ => [7, 8], ⟨[], fun _ => ⟨none⟩, fun _ _ => "QUJD".data⟩,
   [".pdf".data], "fid".data⟩

/-- A mail service whose search returns two messages that each carry
the same single attachment `a.pdf` — the duplicate-filename scenario. -/
def scenarioGmail : Gmail :=
  ⟨["m1".data, "m2".data],
   fun _ => ⟨some ⟨some [⟨some "a.pdf".data, some ⟨some "att".data⟩⟩]⟩⟩,
   fun _ _ => "QUJD".data⟩

/-- C1: the attachment filter accepts `f` iff some entry of the
allowed-extension set is a suffix of the lowercased `f`; the empty set
accepts nothing. -/
theorem extension_filter_matches_spec (f : Str) (S : List Str) :
    (extension_allowed S f = true ↔ ∃ ext ∈ S, pyEndsWith (pyLower f) ext = true) ∧
    extension_allowed [] f = false := by
  constructor
  · simp [extension_allowed, List.any_eq_true]
  · simp [extension_allowed]

/-- C6: destination preparation issues exactly one create-folder call,
named `MM-YYYY` for the run date, whatever the current drive state
(no existence check); sample renderings of the format. -/
theorem folder_creation_unconditional_mm_yyyy :
    (∀ (month year : Nat) (new_id : Str) (drive : DriveState),
       (create_drive_folder month year new_id drive).1 =
         [Event.createFolder (format_mY month year)]) ∧
    format_mY 3 2025 = "03-2025".data ∧ format_mY 11 2024 = "11-2024".data := by
  refine ⟨fun month year new_id drive => rfl, ?_, ?_⟩ <;> decide

/-- C2: a candidate is uploaded iff it has a truthy filename, an
attachment id, an allowed extension, and is absent from the folder at
check time; a whole run uploads any given name at most once; and in the
concrete two-messages-same-filename scenario exactly one upload call is
made in total. -/
theorem upload_iff_allowed_and_absent_and_at_most_once :
    (∀ (ctx : Ctx) (msgId : Str) (drive : DriveState) (part : MsgPart) (fn : Str),
       (∃ bytes, Event.upload fn bytes ctx.drive_folder_id ∈
          (processPart ctx msgId drive part).events) ↔
       (part.filename = some fn ∧ fn ≠ [] ∧
        (∃ b a, part.body = some b ∧ b.attachmentId = some a) ∧
        extension_allowed ctx.allowed_extensions fn = true ∧
        file_exists_in_drive drive fn ctx.drive_folder_id = false)) ∧
    (∀ (b64decode : Str → Bytes) (gmail : Gmail) (extensions_env query fid fn : Str)
       (drive : DriveState),
       uploadsNamed fn
         (download_attachments b64decode gmail extensions_env query fid drive).events ≤ 1) ∧
    uploadsNamed "a.pdf".data
      (download_attachments (fun _ => [7, 8]) scenarioGmail ".pdf".data "q".data
        "fid".data []).events = 1 := by
  refine ⟨?_, ?_, by decide⟩
  · intro ctx msgId drive part fn
    constructor
    · rintro ⟨bytes, hmem⟩
      rcases processPart_cases ctx msgId drive part with h | ⟨h, -⟩ |
        ⟨g, -, -, -, -, -, h⟩ | ⟨g, b, a, hf, hfe, hb, ha, hall, hex, h⟩
      · rw [h] at hmem
        simp at hmem
      · rw [h] at hmem
        simp at hmem
      · rw [h] at hmem
        simp at hmem
      · rw [h] at hmem
        simp only [List.mem_cons, List.not_mem_nil, or_false] at hmem
        rcases hmem with he | he | he
        · exact absurd he (by simp)
        · exact absurd he (by simp)
        · obtain ⟨hn, -, -⟩ := Event.upload.inj he
          subst hn
          exact ⟨hf, hfe, ⟨b, a, hb, ha⟩, hall, hex⟩
    · rintro ⟨hf, hfe, ⟨b, a, hb, ha⟩, hall, hex⟩
      refine ⟨ctx.b64decode (ctx.gmail.attachmentData msgId a), ?_⟩
      simp [processPart, hf, hfe, hb, ha, hall, hex, upload_to_drive]
  · intro b64decode gmail extensions_env query fid fn drive
    have h := (processMessages_upload_inv
      ⟨b64decode, gmail, parse_allowed_extensions extensions_env, fid⟩ fn
      gmail.listResult drive).2.1
    simpa [download_attachments, uploadsNamed] using h

/-- Witness for C2: a concrete candidate with an allowed extension and
an empty folder is uploaded. -/
theorem upload_iff_witness :
    ∃ bytes, Event.upload "a.pdf".data bytes "fid".data ∈
      (processPart sampleCtx "m".data []
        ⟨some "a.pdf".data, some ⟨some "att".data⟩⟩).events :=
  (upload_iff_allowed_and_absent_and_at_most_once.1 sampleCtx "m".data []
      ⟨some "a.pdf".data, some ⟨some "att".data⟩⟩ "a.pdf".data).mpr
    ⟨rfl, by decide, ⟨⟨some "att".data⟩, "att".data, rfl, rfl⟩, by decide, by decide⟩

/-- C3: the duplicate guard is an exact-name, container-scoped,
trashed-excluding boolean query; when it reports `true` the candidate
is not uploaded and the drive state is left untouched. -/
theorem duplicate_guard_exact_name_and_blocks_upload :
    (∀ (drive : DriveState) (n fid : Str),
       file_exists_in_drive drive n fid = true ↔
         ∃ f ∈ drive, f.parent = fid ∧ f.name = n ∧ f.trashed = false) ∧
    (∀ (ctx : Ctx) (msgId : Str) (drive : DriveState) (part : MsgPart) (fn : Str),
       part.filename = some fn →
       file_exists_in_drive drive fn ctx.drive_folder_id = true →
       (processPart ctx msgId drive part).events.filter isUploadEvent = [] ∧
       (processPart ctx msgId drive part).drive = drive) := by
  refine ⟨file_exists_iff, ?_⟩
  intro ctx msgId drive part fn hf hex
  rcases processPart_cases ctx msgId drive part with h | ⟨h, -⟩ |
    ⟨g, -, -, -, -, -, h⟩ | ⟨g, b, a, hg, -, -, -, -, hex', h⟩
  · rw [h]
    exact ⟨rfl, rfl⟩
  · rw [h]
    exact ⟨rfl, rfl⟩
  · rw [h]
    exact ⟨by simp [isUploadEvent], rfl⟩
  · rw [hf] at hg
    obtain rfl := Option.some.inj hg
    rw [hex] at hex'
    cases hex'

/-- Witness for C3: with `a.pdf` already in the folder, the step issues
no upload and leaves the state unchanged. -/
theorem duplicate_guard_witness :
    (processPart sampleCtx "m".data [⟨"fid".data, "a.pdf".data, false⟩]
       ⟨some "a.pdf".data, some ⟨some "att".data⟩⟩).events.filter isUploadEvent = [] ∧
    (processPart sampleCtx "m".data [⟨"fid".data, "a.pdf".data, false⟩]
       ⟨some "a.pdf".data, some ⟨some "att".data⟩⟩).drive =
      [⟨"fid".data, "a.pdf".data, false⟩] :=
  duplicate_guard_exact_name_and_blocks_upload.2 sampleCtx "m".data
    [⟨"fid".data, "a.pdf".data, false⟩]
    ⟨some "a.pdf".data, some ⟨some "att".data⟩⟩ "a.pdf".data rfl (by decide)

/-- C4: a message whose representation lacks `parts` (or `payload`) is
skipped without error: its step only fetches the message, changes
nothing, does not abort, and the loop continues with the rest. -/
theorem missing_parts_skipped_without_error (ctx : Ctx) (msgId : Str) (rest : List Str)
    (drive : DriveState)
    (h : (ctx.gmail.getMessage msgId).payload = none ∨
         ∃ pl, (ctx.gmail.getMessage msgId).payload = some pl ∧ pl.parts = none) :
    processMessage ctx msgId drive = ⟨[Event.getMessage msgId], drive, false⟩ ∧
    processMessages ctx (msgId :: rest) drive =
      ⟨Event.getMessage msgId :: (processMessages ctx rest drive).events,
       (processMessages ctx rest drive).drive,
       (processMessages ctx rest drive).aborted⟩ := by
  have h1 : processMessage ctx msgId drive = ⟨[Event.getMessage msgId], drive, false⟩ := by
    rcases h with hpl | ⟨pl, hpl, hps⟩
    · simp [processMessage, hpl]
    · simp [processMessage, hpl, hps]
  exact ⟨h1, by simp [processMessages, h1]⟩

/-- Witness for C4: a payload-free message is skipped and the (empty)
remainder of the loop still runs. -/
theorem missing_parts_witness :
    processMessage sampleCtx "m".data [] = ⟨[Event.getMessage "m".data], [], false⟩ ∧
    processMessages sampleCtx ["m".data] [] =
      ⟨Event.getMessage "m".data :: (processMessages sampleCtx [] []).events,
       (processMessages sampleCtx [] []).drive,
       (processMessages sampleCtx [] []).aborted⟩ :=
  missing_parts_skipped_without_error sampleCtx "m".data [] [] (Or.inl rfl)

/-- C5: every issued upload carries exactly the decode of the fetched
attachment's `data` field, under the part's own filename, into the
run's destination folder. -/
theorem uploaded_bytes_are_decoded_attachment_data (ctx : Ctx) (msgId : Str)
    (drive : DriveState) (part : MsgPart) (fn : Str) (bytes : Bytes) (fid : Str)
    (h : Event.upload fn bytes fid ∈ (processPart ctx msgId drive part).events) :
    part.filename = some fn ∧ fid = ctx.drive_folder_id ∧
    ∃ b a, part.body = some b ∧ b.attachmentId = some a ∧
      bytes = ctx.b64decode (ctx.gmail.attachmentData msgId a) := by
  rcases processPart_cases ctx msgId drive part with hc | ⟨hc, -⟩ |
    ⟨g, -, -, -, -, -, hc⟩ | ⟨g, b, a, hf, -, hb, ha, -, -, hc⟩
  · rw [hc] at h
    simp at h
  · rw [hc] at h
    simp at h
  · rw [hc] at h
    simp at h
  · rw [hc] at h
    simp only [List.mem_cons, List.not_mem_nil, or_false] at h
    rcases h with he | he | he
    · exact absurd he (by simp)
    · exact absurd he (by simp)
    · obtain ⟨hn, hd, hi⟩ := Event.upload.inj he
      subst hn
      subst hi
      exact ⟨hf, rfl, b, a, hb, ha, hd⟩

/-- Witness for C5: the concrete upload of `a.pdf` carries the decoder's
output on the fetched data. -/
theorem uploaded_bytes_witness :
    (⟨some "a.pdf".data, some ⟨some "att".data⟩⟩ : MsgPart).filename = some "a.pdf".data ∧
    "fid".data = sampleCtx.drive_folder_id ∧
    ∃ b a, (⟨some "a.pdf".data, some ⟨some "att".data⟩⟩ : MsgPart).body = some b ∧
      b.attachmentId = some a ∧
      [7, 8] = sampleCtx.b64decode (sampleCtx.gmail.attachmentData "m".data a) :=
  uploaded_bytes_are_decoded_attachment_data sampleCtx "m".data []
    ⟨some "a.pdf".data, some ⟨some "att".data⟩⟩ "a.pdf".data [7, 8] "fid".data (by decide)

/-- C7: with `GMAIL_SEARCH_QUERY` absent, the run's whole trace is the
single folder-creation call: no mail-service call at all, and no
storage-service call beyond the container creation. -/
theorem missing_query_aborts_after_setup (b64decode : Str → Bytes) (gmail : Gmail)
    (cfg : Config) (month year : Nat) (new_folder_id : Str) (drive : DriveState)
    (h : cfg.gmail_search_query = none) :
    main_run b64decode gmail cfg month year new_folder_id drive =
      [Event.createFolder (format_mY month year)] ∧
    (main_run b64decode gmail cfg month year new_folder_id drive).filter isMailCall = [] ∧
    (main_run b64decode gmail cfg month year new_folder_id drive).filter isStorageCall =
      [Event.createFolder (format_mY month year)] := by
  have h1 : main_run b64decode gmail cfg month year new_folder_id drive =
      [Event.createFolder (format_mY month year)] := by
    simp [main_run, h, create_drive_folder]
  exact ⟨h1, by rw [h1]; simp [isMailCall], by rw [h1]; simp [isStorageCall]⟩

/-- Witness for C7: a concrete unset-query run issues only the folder
creation. -/
theorem missing_query_witness :
    main_run (fun _ => []) sampleCtx.gmail ⟨some ".pdf".data, none⟩ 3 2025 "fid".data [] =
      [Event.createFolder (format_mY 3 2025)] ∧
    (main_run (fun _ => []) sampleCtx.gmail ⟨some ".pdf".data, none⟩ 3 2025
        "fid".data []).filter isMailCall = [] ∧
    (main_run (fun _ => []) sampleCtx.gmail ⟨some ".pdf".data, none⟩ 3 2025
        "fid".data []).filter isStorageCall = [Event.createFolder (format_mY 3 2025)] :=
  missing_query_aborts_after_setup (fun _ => []) sampleCtx.gmail
    ⟨some ".pdf".data, none⟩ 3 2025 "fid".data [] rfl

/-- C8: the run's trace is the in-order concatenation of the
per-message traces, and a message's trace is the in-order concatenation
of its per-part traces — no client-side reordering anywhere. -/
theorem processing_preserves_service_order (ctx : Ctx) (msgId : Str) :
    (∀ (parts : List MsgPart) (drive : DriveState),
       (processParts ctx msgId parts drive).events =
         (partTraces ctx msgId parts drive).flatten) ∧
    (∀ (msgs : List Str) (drive : DriveState),
       (processMessages ctx msgs drive).events =
         (messageTraces ctx msgs drive).flatten) := by
  constructor
  · intro parts
    induction parts with
    | nil => intro drive; simp [processParts, partTraces]
    | cons p rest ih =>
      intro drive
      cases hab : (processPart ctx msgId drive p).aborted with
      | true => simp [processParts, partTraces, hab]
      | false => simp [processParts, partTraces, hab, ih]
  · intro msgs
    induction msgs with
    | nil => intro drive; simp [processMessages, messageTraces]
    | cons m rest ih =>
      intro drive
      cases hab : (processMessage ctx m drive).aborted with
      | true => simp [processMessages, messageTraces, hab]
      | false => simp [processMessages, messageTraces, hab, ih]

/-- C9: a part with a truthy filename but no `body` key hits an
uncaught `KeyError`, producing no events and aborting the rest of the
inner loop; an aborted message stops the outer loop; by contrast a part
with no filename, or with a `body` but no attachment id, is silently
skipped. -/
theorem missing_body_key_raises_and_aborts :
    (∀ (ctx : Ctx) (msgId : Str) (drive : DriveState) (part : MsgPart) (fn : Str)
       (rest : List MsgPart),
       part.filename = some fn → fn ≠ [] → part.body = none →
       processPart ctx msgId drive part = ⟨[], drive, true⟩ ∧
       processParts ctx msgId (part :: rest) drive = ⟨[], drive, true⟩) ∧
    (∀ (ctx : Ctx) (msgId : Str) (drive : DriveState) (rest : List Str),
       (processMessage ctx msgId drive).aborted = true →
       processMessages ctx (msgId :: rest) drive = processMessage ctx msgId drive) ∧
    (∀ (ctx : Ctx) (msgId : Str) (drive : DriveState) (part : MsgPart),
       part.filename = none → processPart ctx msgId drive part = ⟨[], drive, false⟩) ∧
    (∀ (ctx : Ctx) (msgId : Str) (drive : DriveState) (part : MsgPart) (b : PartBody),
       part.body = some b → b.attachmentId = none →
       processPart ctx msgId drive part = ⟨[], drive, false⟩) := by
  refine ⟨?_, ?_, ?_, ?_⟩
  · intro ctx msgId drive part fn rest hf hfe hb
    have h1 : processPart ctx msgId drive part = ⟨[], drive, true⟩ := by
      simp [processPart, hf, hfe, hb]
    exact ⟨h1, by simp [processParts, h1]⟩
  · intro ctx msgId drive rest hab
    simp [processMessages, hab]
  · intro ctx msgId drive part hf
    simp [processPart, hf]
  · intro ctx msgId drive part b hb ha
    cases hf : part.filename with
    | none => simp [processPart, hf]
    | some fn =>
      by_cases hfe : fn = []
      · simp [processPart, hf, hfe]
      · simp [processPart, hf, hfe, hb, ha]

/-- Witness for C9: a concrete part with filename `a.pdf` and no `body`
key aborts the loop with no events. -/
theorem missing_body_key_witness :
    processPart sampleCtx "m".data [] ⟨some "a.pdf".data, none⟩ = ⟨[], [], true⟩ ∧
    processParts sampleCtx "m".data [⟨some "a.pdf".data, none⟩] [] = ⟨[], [], true⟩ :=
  missing_body_key_raises_and_aborts.1 sampleCtx "m".data [] ⟨some "a.pdf".data, none⟩
    "a.pdf".data [] rfl (by decide) rfl

/-- `splitComma` never returns the empty list of pieces. -/
theorem splitComma_ne_nil : ∀ s : Str, splitComma s ≠ []
  | [] => by simp [splitComma]
  | c :: rest => by
    cases hs : splitComma rest with
    | nil => exact absurd hs (splitComma_ne_nil rest)
    | cons hd tl =>
      by_cases hc : c = ','
      · simp [splitComma, hs, hc]
      · simp [splitComma, hs, hc]

/-- Every character of a comma-split piece comes from the source string
and is not a comma. -/
theorem mem_splitComma_chars : ∀ (s piece : Str), piece ∈ splitComma s →
    ∀ c ∈ piece, c ∈ s ∧ c ≠ ','
  | [], piece, hp, c, hc => by
    simp [splitComma] at hp
    subst hp
    simp at hc
  | d :: rest, piece, hp, c, hc => by
    cases hs : splitComma rest with
    | nil => exact absurd hs (splitComma_ne_nil rest)
    | cons hd tl =>
      simp only [splitComma, hs] at hp
      by_cases hd' : d = ','
      · rw [if_pos hd'] at hp
        rcases List.mem_cons.mp hp with hpe | hp'
        · subst hpe
          simp at hc
        · have hmem : piece ∈ splitComma rest := by rw [hs]; exact hp'
          obtain ⟨h1, h2⟩ := mem_splitComma_chars rest piece hmem c hc
          exact ⟨List.mem_cons_of_mem _ h1, h2⟩
      · rw [if_neg hd'] at hp
        rcases List.mem_cons.mp hp with hpe | hp'
        · subst hpe
          rcases List.mem_cons.mp hc with hce | hc'
          · subst hce
            exact ⟨List.mem_cons_self _ _, hd'⟩
          · have hmem : hd ∈ splitComma rest := by rw [hs]; exact List.mem_cons_self _ _
            obtain ⟨h1, h2⟩ := mem_splitComma_chars rest hd hmem c hc'
            exact ⟨List.mem_cons_of_mem _ h1, h2⟩
        · have hmem : piece ∈ splitComma rest := by
            rw [hs]; exact List.mem_cons_of_mem _ hp'
          obtain ⟨h1, h2⟩ := mem_splitComma_chars rest piece hmem c hc
          exact ⟨List.mem_cons_of_mem _ h1, h2⟩

/-- Stripping a whitespace-only string yields the empty string. -/
theorem pyStrip_eq_nil_of_whitespace (s : Str) (h : ∀ c ∈ s, c.isWhitespace = true) :
    pyStrip s = [] := by
  have h1 : s.dropWhile Char.isWhitespace = [] := by
    rw [List.dropWhile_eq_nil_iff]
    exact h
  simp [pyStrip, h1]

/-- With an empty allowed-extension set a part step does nothing except
possibly abort. -/
theorem processPart_events_of_empty (ctx : Ctx) (msgId : Str) (drive : DriveState)
    (part : MsgPart) (h : ctx.allowed_extensions = []) :
    (processPart ctx msgId drive part).events = [] ∧
    (processPart ctx msgId drive part).drive = drive := by
  rcases processPart_cases ctx msgId drive part with hc | ⟨hc, -⟩ |
    ⟨g, -, -, -, hall, -, hc⟩ | ⟨g, b, a, -, -, -, -, hall, -, hc⟩
  · rw [hc]
    exact ⟨rfl, rfl⟩
  · rw [hc]
    exact ⟨rfl, rfl⟩
  · rw [h] at hall
    simp [extension_allowed] at hall
  · rw [h] at hall
    simp [extension_allowed] at hall

/-- With an empty allowed-extension set the inner loop emits no events. -/
theorem processParts_events_of_empty (ctx : Ctx) (msgId : Str)
    (h : ctx.allowed_extensions = []) :
    ∀ (parts : List MsgPart) (drive : DriveState),
      (processParts ctx msgId parts drive).events = []
  | [], drive => rfl
  | p :: rest, drive => by
    obtain ⟨he, hd⟩ := processPart_events_of_empty ctx msgId drive p h
    cases hab : (processPart ctx msgId drive p).aborted with
    | true => simp [processParts, hab, he]
    | false =>
      have ih := processParts_events_of_empty ctx msgId h rest
        (processPart ctx msgId drive p).drive
      simp [processParts, hab, he, ih]

/-- With an empty allowed-extension set the outer loop issues no upload
call. -/
theorem processMessages_no_uploads_of_empty (ctx : Ctx)
    (h : ctx.allowed_extensions = []) :
    ∀ (msgs : List Str) (drive : DriveState),
      (processMessages ctx msgs drive).events.filter isUploadEvent = []
  | [], drive => rfl
  | msgId :: rest, drive => by
    have he : (processMessage ctx msgId drive).events.filter isUploadEvent = [] := by
      cases hpl : (ctx.gmail.getMessage msgId).payload with
      | none => simp [processMessage, hpl, isUploadEvent]
      | some payload =>
        cases hps : payload.parts with
        | none => simp [processMessage, hpl, hps, isUploadEvent]
        | some parts =>
          have hinner := processParts_events_of_empty ctx msgId h parts drive
          simp [processMessage, hpl, hps, hinner, isUploadEvent]
    cases hab : (processMessage ctx msgId drive).aborted with
    | true => simp [processMessages, hab, he]
    | false =>
      have ih := processMessages_no_uploads_of_empty ctx h rest
        (processMessage ctx msgId drive).drive
      simp [processMessages, hab, List.filter_append, he, ih]

/-- C10: the allowed-extension set is the comma-split of the
configuration string with entries stripped, lowercased, and dropped
when empty; the empty string, and any string of only commas and
whitespace, parse to the empty set; and an empty set makes the whole
run upload nothing. -/
theorem allowed_extensions_parsing_and_empty_behavior :
    (∀ (env ext : Str), ext ∈ parse_allowed_extensions env ↔
       ∃ piece ∈ splitComma env, pyStrip piece ≠ [] ∧ ext = pyLower (pyStrip piece)) ∧
    parse_allowed_extensions [] = [] ∧
    (∀ env : Str, (∀ c ∈ env, c = ',' ∨ c.isWhitespace = true) →
       parse_allowed_extensions env = []) ∧
    (∀ (b64decode : Str → Bytes) (gmail : Gmail) (env query fid : Str)
       (drive : DriveState), parse_allowed_extensions env = [] →
       (download_attachments b64decode gmail env query fid
         drive).events.filter isUploadEvent = []) := by
  refine ⟨?_, by decide, ?_, ?_⟩
  · intro env ext
    simp only [parse_allowed_extensions, List.mem_map, List.mem_filter,
      Bool.not_eq_true', List.isEmpty_eq_false, ne_eq]
    constructor
    · rintro ⟨piece, ⟨hmem, hne⟩, rfl⟩
      exact ⟨piece, hmem, hne, rfl⟩
    · rintro ⟨piece, hmem, hne, rfl⟩
      exact ⟨piece, ⟨hmem, hne⟩, rfl⟩
  · intro env henv
    have hall : ∀ piece ∈ splitComma env, pyStrip piece = [] := by
      intro piece hpm
      apply pyStrip_eq_nil_of_whitespace
      intro c hcm
      obtain ⟨hce, hcn⟩ := mem_splitComma_chars env piece hpm c hcm
      rcases henv c hce with hcc | hcw
      · exact absurd hcc hcn
      · exact hcw
    have hfil : (splitComma env).filter (fun ext => !(pyStrip ext).isEmpty) = [] := by
      rw [List.filter_eq_nil_iff]
      intro a ha
      simp [hall a ha]
    simp [parse_allowed_extensions, hfil]
  · intro b64decode gmail env query fid drive hempty
    have h := processMessages_no_uploads_of_empty
      ⟨b64decode, gmail, parse_allowed_extensions env, fid⟩ hempty
      gmail.listResult drive
    simpa [download_attachments, isUploadEvent] using h

/-- Witness for C10: a concrete commas-and-whitespace configuration
parses to the empty set, and a concrete run with it uploads nothing. -/
theorem allowed_extensions_witness :
    parse_allowed_extensions " ,\t ,,".data = [] ∧
    (download_attachments (fun _ => []) ⟨["m".data], fun _ => ⟨none⟩, fun _ _ => []⟩
       " ,\t ,,".data "q".data "fid".data []).events.filter isUploadEvent = [] := by
  have h1 : parse_allowed_extensions " ,\t ,,".data = [] :=
    allowed_extensions_parsing_and_empty_behavior.2.2.1 " ,\t ,,".data (by decide)
  exact ⟨h1, allowed_extensions_parsing_and_empty_behavior.2.2.2 (fun _ => [])
    ⟨["m".data], fun _ => ⟨none⟩, fun _ _ => []⟩ " ,\t ,,".data "q".data "fid".data [] h1⟩

end GmailArchiver
